import Mathlib

/-!
Verification of the core of the `pckgi` NPM package scanner
(`src/index.js`): the health-scoring utility, the TTL result cache,
the retrying HTTP client, the semantic-version parser, the search
result filter, and the batch comparison.

Each JavaScript function is embedded shallowly: JS numbers become
`Int`/`Nat` (all arithmetic here is integral and far below 2^53, so no
floating-point behaviour is involved), fallible operations become
`Option`/`Except`, the wall clock and the network become explicit
parameters.
-/

namespace Pckgi

/-! ## utils.calculateHealth (src/index.js lines 95-116)

`calculateHealth(daysSinceUpdate, downloads, isDeprecated,
hasVulnerabilities = false)` returns `{status, score}`.  JS numbers are
modelled as `Int` (the caller passes `Math.floor` day counts, which can
in principle be negative for a clock that runs behind the registry, and
download counts). -/

structure HealthResult where
  status : String
  score : Int
deriving DecidableEq, Repr

/-- The value of `score` after `let score = 100` and the staged age
penalty of lines 99-104 (the three `else if` branches are mutually
exclusive). -/
def ageScore (daysSinceUpdate : Int) : Int :=
  if daysSinceUpdate > 1095 then 100 - 60
  else if daysSinceUpdate > 730 then 100 - 40
  else if daysSinceUpdate > 365 then 100 - 20
  else 100

/-- The value of `score` after the additional staged download penalty
of lines 107-109. -/
def penalizedScore (daysSinceUpdate downloads : Int) : Int :=
  if downloads < 10 then ageScore daysSinceUpdate - 30
  else if downloads < 100 then ageScore daysSinceUpdate - 15
  else if downloads < 1000 then ageScore daysSinceUpdate - 5
  else ageScore daysSinceUpdate

def calculateHealth (daysSinceUpdate downloads : Int)
    (isDeprecated : Bool) (hasVulnerabilities : Bool := false) : HealthResult :=
  if isDeprecated then { status := "deprecated", score := 0 }
  else if hasVulnerabilities then { status := "vulnerable", score := 20 }
  else if penalizedScore daysSinceUpdate downloads ≥ 80 then
    { status := "excellent", score := penalizedScore daysSinceUpdate downloads }
  else if penalizedScore daysSinceUpdate downloads ≥ 60 then
    { status := "good", score := penalizedScore daysSinceUpdate downloads }
  else if penalizedScore daysSinceUpdate downloads ≥ 40 then
    { status := "fair", score := penalizedScore daysSinceUpdate downloads }
  else if penalizedScore daysSinceUpdate downloads ≥ 20 then
    { status := "poor", score := penalizedScore daysSinceUpdate downloads }
  else { status := "critical", score := penalizedScore daysSinceUpdate downloads }

/-! ## ResultCache (src/index.js lines 61-86)

The JS `Map` is modelled as a function from keys to optional
`(data, timestamp)` pairs, and `Date.now()` becomes an explicit `now`
argument.  `Date.now() - item.timestamp > this.ttl` is a comparison of
JS numbers with `now ≥ timestamp` in every real execution; with `Nat`
truncated subtraction a hypothetical `now < timestamp` also yields
"not expired", exactly as the negative JS difference would. -/

structure ResultCache (V : Type) where
  cache : String → Option (V × Nat)
  ttl : Nat

/-- Model of `ResultCache.get`: returns the looked-up value and the
cache state after the call (the call deletes an expired entry). -/
def ResultCache.get {V : Type} (c : ResultCache V) (key : String) (now : Nat) :
    Option V × ResultCache V :=
  match c.cache key with
  | none => (none, c)
  | some (data, timestamp) =>
    if now - timestamp > c.ttl then
      (none, { c with cache := fun k => if k = key then none else c.cache k })
    else
      (some data, c)

/-- Model of `ResultCache.set`. -/
def ResultCache.set {V : Type} (c : ResultCache V) (key : String) (data : V)
    (now : Nat) : ResultCache V :=
  { c with cache := fun k => if k = key then some (data, now) else c.cache k }

/-- Model of `ResultCache.clear`. -/
def ResultCache.clear {V : Type} (c : ResultCache V) : ResultCache V :=
  { c with cache := fun _ => none }

end Pckgi

namespace Pckgi

/-! ## NPMScanner.compare (src/index.js lines 346-364)

`compare` maps `scan` over the package names, joins with
`Promise.allSettled`, and rebuilds one entry per input name by index.
The network-dependent `scan` is abstracted as an environment
`scanEnv : String → Except String α` giving, for each package name, the
report `scan` would resolve with or the message of the error it would
reject with (`scan` is deterministic in the registry state, which the
environment captures). -/

inductive SettledResult (α : Type) where
  | fulfilled (value : α)
  | rejected (reason : String)
deriving DecidableEq, Repr

/-- Model of `Promise.allSettled` applied to an already-determined list
of outcomes: it never rejects, and preserves order and length. -/
def allSettled {α : Type} (tasks : List (Except String α)) : List (SettledResult α) :=
  tasks.map fun t =>
    match t with
    | .ok v => .fulfilled v
    | .error m => .rejected m

structure CompareEntry (α : Type) where
  name : String
  success : Bool
  data : Option α
  error : Option String
deriving DecidableEq, Repr

/-- Model of `NPMScanner.compare`.  `results[index]` is always in
bounds because `allSettled` preserves the length of the mapped list;
the `none` branch is unreachable (in JS an out-of-bounds access would
make the body throw and the surrounding `catch` rewrap it, but that
never happens). -/
def compare {α : Type} (scanEnv : String → Except String α)
    (packageNames : List String) : List (CompareEntry α) :=
  let results := allSettled (packageNames.map scanEnv)
  packageNames.mapIdx fun index name =>
    match results[index]? with
    | some (.fulfilled v) =>
        { name := name, success := true, data := some v, error := none }
    | some (.rejected m) =>
        { name := name, success := false, data := none, error := some m }
    | none =>
        { name := name, success := false, data := none, error := none }

/-- The entry `compare` builds for a name whose scan had the given
outcome (the two reachable branches of the mapper in lines 352-360). -/
def compareEntryOf {α : Type} (name : String) (outcome : Except String α) :
    CompareEntry α :=
  match outcome with
  | .ok v => { name := name, success := true, data := some v, error := none }
  | .error m => { name := name, success := false, data := none, error := some m }

/-! ## HttpClient (src/index.js lines 8-56)

`HttpClient.get` is a retry loop around `fetch` with a single
`AbortController`.  The network and the event-loop clock are modelled
explicitly: attempt number `a` of a run is described by `env a`, giving
how many milliseconds the fetch would take to settle and with what.

The timing semantics mirrors the source statement by statement:

* line 16 arms ONE timer (`setTimeout(() => controller.abort(), this.timeout)`)
  before the loop, at absolute time 0, so its deadline is `timeout`;
* if the deadline falls strictly inside an attempt's fetch, the fetch
  rejects with an `AbortError` at the deadline (a deadline landing
  exactly when the fetch settles is resolved in favour of the fetch);
* a rejection or non-2xx response with attempts remaining sleeps
  `2^attempt * 100` ms inside the `catch` (line 48); if the armed
  deadline falls inside that sleep, `controller.abort()` fires and the
  shared signal becomes aborted forever, so the next fetch rejects
  immediately with an `AbortError`;
* the `finally` (line 50) runs after the `catch` completes, i.e. after
  the backoff sleep, and clears the timer — so from the second
  iteration on no timer is armed;
* `attempt === retries` or an `AbortError` breaks the loop and the last
  error is thrown (line 54). -/

inductive FetchBehavior where
  | response (status : Nat) (statusText : String) (body : String)
  | reject (msg : String)
deriving DecidableEq, Repr

structure AttemptSpec where
  duration : Nat
  behavior : FetchBehavior
deriving DecidableEq, Repr

inductive ReqError where
  | abortError
  | httpError (status : Nat) (statusText : String)
  | netError (msg : String)
deriving DecidableEq, Repr

inductive TimerState where
  | armed
  | fired
  | cleared
deriving DecidableEq, Repr

/-- A completed call of `HttpClient.get`: its outcome, the backoff
waits it performed in order, how many fetch attempts were started, and
the absolute time at which the call settled. -/
structure GetTrace where
  result : Except ReqError (String × Nat)
  waits : List Nat
  attempts : Nat
  endTime : Nat
deriving Repr

/-- Outcome of a fetch that settled un-aborted (lines 32-39):
`response.ok` is status 200-299, a non-ok response throws
`HTTP status: statusText`, a rejected fetch is a network error.  The
body stands for the already-parsed JSON value. -/
def attemptResult (beh : FetchBehavior) : Except ReqError (String × Nat) :=
  match beh with
  | .response status statusText body =>
      if 200 ≤ status ∧ status ≤ 299 then .ok (body, status)
      else .error (.httpError status statusText)
  | .reject msg => .error (.netError msg)

/-- One iteration of the `for` loop per recursive step.  `fuel` is
`retries + 1 - a`, so the base case is unreachable; `a` is the attempt
index, `t` the absolute time, `timer` the state of the single abort
timer armed at line 16, `sig` whether `controller.signal` is already
aborted. -/
def getLoop (timeout retries : Nat) (env : Nat → AttemptSpec) :
    Nat → Nat → Nat → TimerState → Bool → GetTrace
  | 0, a, t, _, _ =>
      { result := .error .abortError, waits := [], attempts := a, endTime := t }
  | fuel + 1, a, t, timer, sig =>
    if sig then
      -- fetch with an already-aborted signal rejects at once; AbortError breaks
      { result := .error .abortError, waits := [], attempts := a + 1, endTime := t }
    else if timer = TimerState.armed ∧ timeout < t + (env a).duration then
      -- the timer fires mid-fetch: AbortError at the deadline, break, throw
      { result := .error .abortError, waits := [], attempts := a + 1, endTime := timeout }
    else
      match attemptResult (env a).behavior with
      | .ok v =>
          { result := .ok v, waits := [], attempts := a + 1,
            endTime := t + (env a).duration }
      | .error e =>
        if a = retries then
          { result := .error e, waits := [], attempts := a + 1,
            endTime := t + (env a).duration }
        else
          if timer = TimerState.armed ∧ timeout ≤ t + (env a).duration + 2 ^ a * 100 then
            -- the timer fires during the backoff sleep: the signal aborts,
            -- then finally clears the (already fired) timer
            (fun rest => { rest with waits := 2 ^ a * 100 :: rest.waits })
              (getLoop timeout retries env fuel (a + 1)
                (t + (env a).duration + 2 ^ a * 100) TimerState.fired true)
          else
            (fun rest => { rest with waits := 2 ^ a * 100 :: rest.waits })
              (getLoop timeout retries env fuel (a + 1)
                (t + (env a).duration + 2 ^ a * 100)
                (if timer = TimerState.armed then TimerState.cleared else timer) false)

structure HttpClient where
  timeout : Nat := 5000
  retries : Nat := 2
deriving DecidableEq, Repr

/-- Model of `HttpClient.get(url, options)`: the timer is armed at
time 0 with deadline `timeout`, the signal starts un-aborted, and the
loop runs attempts `0 .. retries`. -/
def HttpClient.get (c : HttpClient) (env : Nat → AttemptSpec) : GetTrace :=
  getLoop c.timeout c.retries env (c.retries + 1) 0 0 TimerState.armed false

/-! ## utils.parseVersion (src/index.js lines 131-145)

The regex
`^(\d+)\.(\d+)\.(\d+)(?:-([a-zA-Z0-9-]+(?:\.[a-zA-Z0-9-]+)*))?(?:\+([a-zA-Z0-9-]+(?:\.[a-zA-Z0-9-]+)*))?$`
is embedded as a deterministic maximal-munch scanner over the
character list.  Maximal munch coincides with the backtracking regex
here because each repeated class is followed only by characters outside
it: `\d+` is always followed by a literal `.` in the pattern, and the
identifier class `[a-zA-Z0-9-]+` and its `(?:\.[...])*` star are
followed only by `+` or the end of input, neither of which the class or
`.` can begin; giving back characters therefore never lets the rest of
the pattern match, and skipping an optional group whose introducing
`-`/`+` is present likewise leaves an unmatchable remainder.  A `.`
that is not followed by an identifier character is left unconsumed by
the star, after which `$` necessarily fails — the scanner's overall
failure in that case agrees with the regex. -/

/-- The character class `[a-zA-Z0-9-]` of the PRERELEASE/BUILD
identifiers (ASCII letters, digits and hyphen). -/
def isIdentChar (c : Char) : Bool :=
  c.isAlpha || c.isDigit || c == '-'

/-- The `(?:\.[a-zA-Z0-9-]+)*` star: consumes as many `.`-prefixed
identifier runs as possible, leaving a `.` not followed by an
identifier character unconsumed.  `fuel` bounds the recursion (each
step consumes at least two characters); callers pass the input length,
which is always enough. -/
def dotIdents : Nat → List Char → List Char × List Char
  | 0, l => ([], l)
  | fuel + 1, l =>
    match l with
    | [] => ([], [])
    | c :: rest =>
      if c = '.' then
        if (rest.takeWhile isIdentChar).isEmpty then ([], c :: rest)
        else
          (fun p => (c :: (rest.takeWhile isIdentChar ++ p.1), p.2))
            (dotIdents fuel (rest.dropWhile isIdentChar))
      else ([], c :: rest)

/-- The `[a-zA-Z0-9-]+(?:\.[a-zA-Z0-9-]+)*` group: at least one
identifier character, then the dotted star.  Returns the matched
characters and the rest, or `none` when no identifier character
starts the input. -/
def identSeq (l : List Char) : Option (List Char × List Char) :=
  if (l.takeWhile isIdentChar).isEmpty then none
  else
    (fun p => some (l.takeWhile isIdentChar ++ p.1, p.2))
      (dotIdents (l.dropWhile isIdentChar).length (l.dropWhile isIdentChar))

/-- The optional `(?:-(...))?` / `(?:\+(...))?` group: a leading
`intro` character commits to the group (skipping it could never let
the rest of the anchored pattern match the remaining `intro ...`);
without the `intro` character the group matches nothing. -/
def optGroup (intro : Char) (l : List Char) :
    Option (Option (List Char) × List Char) :=
  match l with
  | c :: rest =>
    if c = intro then
      (identSeq rest).map (fun p => (some p.1, p.2))
    else some (none, c :: rest)
  | [] => some (none, [])

/-- `parseInt` on a captured `\d+` group (exact here; the capture
groups of interest in this repository are far below 2^53, where the JS
number is also exact). -/
def digitsToNat (l : List Char) : Nat :=
  l.foldl (fun n c => 10 * n + (c.toNat - '0'.toNat)) 0

structure VersionInfo where
  major : Nat
  minor : Nat
  patch : Nat
  prerelease : Option String
  build : Option String
  isStable : Bool
deriving DecidableEq, Repr

/-- The tail of the pattern after `MAJOR.MINOR.PATCH`: the optional
prerelease group, the optional build group, and the `$` anchor; on
success assembles the object of lines 137-144 (`parseInt` on the three
numeric captures, captured groups or `null`, `isStable := !match[4]`). -/
def afterPatch (maj mnr pat : List Char) (r5 : List Char) : Option VersionInfo :=
  (optGroup '-' r5).bind fun pr =>
    (optGroup '+' pr.2).bind fun br =>
      if br.2.isEmpty then
        some { major := digitsToNat maj
               minor := digitsToNat mnr
               patch := digitsToNat pat
               prerelease := pr.1.map (fun cs => String.mk cs)
               build := br.1.map (fun cs => String.mk cs)
               isStable := pr.1.isNone }
      else none

/-- The third numeric capture `(\d+)` (the PATCH part). -/
def parsePatchPart (maj mnr : List Char) (r4 : List Char) : Option VersionInfo :=
  if (r4.takeWhile Char.isDigit).isEmpty then none
  else afterPatch maj mnr (r4.takeWhile Char.isDigit) (r4.dropWhile Char.isDigit)

/-- The literal `\.` between MINOR and PATCH. -/
def parseDot2 (maj mnr : List Char) (r3 : List Char) : Option VersionInfo :=
  match r3 with
  | [] => none
  | c2 :: r4 => if c2 = '.' then parsePatchPart maj mnr r4 else none

/-- The second numeric capture `(\d+)` (the MINOR part). -/
def parseMinorPart (maj : List Char) (r2 : List Char) : Option VersionInfo :=
  if (r2.takeWhile Char.isDigit).isEmpty then none
  else parseDot2 maj (r2.takeWhile Char.isDigit) (r2.dropWhile Char.isDigit)

/-- The literal `\.` between MAJOR and MINOR. -/
def parseDot1 (maj : List Char) (r1 : List Char) : Option VersionInfo :=
  match r1 with
  | [] => none
  | c1 :: r2 => if c1 = '.' then parseMinorPart maj r2 else none

/-- Model of `utils.parseVersion`: match the anchored semver regex
stage by stage, starting with the first numeric capture `(\d+)`; a
non-match returns `none`; `prerelease`/`build` are the captured groups
or `null`; `isStable` is `!match[4]` (the prerelease capture is never
the empty string, so its truthiness is its presence). -/
def parseVersion (s : String) : Option VersionInfo :=
  if (s.data.takeWhile Char.isDigit).isEmpty then none
  else parseDot1 (s.data.takeWhile Char.isDigit) (s.data.dropWhile Char.isDigit)

/-! ## NPMScanner.search result processing (src/index.js lines 185-214)

The claims about `search` concern what the returned list contains, so
the embedding covers the processing of the fetched search response:
the mapping of `data.objects` into result records (lines 185-206) and
the stability filter (lines 209-211).  The URL construction and the
HTTP call are the `HttpClient` model's concern, and a cache hit
returns a list previously produced and stored by this very
computation under a key that includes the options. -/

/-- JS `a || b` on strings: the empty string is falsy. -/
def strOrElse (a : Option String) (b : String) : String :=
  match a with
  | some s => if s = "" then b else s
  | none => b

/-- The fields of one element of `data.objects` that the mapping at
lines 185-206 reads.  `Option` marks the `?.`/`||` accesses; the
score components are the registry's fractional scores as rationals
(they are decimal in the JSON wire format). -/
structure RawPackage where
  name : String
  description : Option String
  version : String
  authorName : Option String
  publisherUsername : Option String
  keywords : Option (List String)
  license : Option String
  links : Option (List (String × String))
  date : String

structure RawScore where
  final : ℚ
  quality : ℚ
  popularity : ℚ
  maintenance : ℚ

structure RawObject where
  package : RawPackage
  score : RawScore

/-- The search response body: `data.objects` may be missing. -/
structure SearchData where
  objects : Option (List RawObject)

structure SearchResult where
  name : String
  description : String
  version : String
  versionInfo : Option VersionInfo
  author : String
  keywords : List String
  license : String
  scoreFinal : ℤ
  scoreQuality : ℤ
  scorePopularity : ℤ
  scoreMaintenance : ℤ
  links : List (String × String)
  publishedAt : String

/-- The mapping of one raw object into a `SearchResult`
(lines 185-206).  `Math.round` on the scaled rational score is
`round` (both round halves up). -/
def mkSearchResult (obj : RawObject) : SearchResult :=
  { name := obj.package.name
    description := strOrElse obj.package.description "No description available"
    version := obj.package.version
    versionInfo := parseVersion obj.package.version
    author := strOrElse obj.package.authorName
      (strOrElse obj.package.publisherUsername "Unknown")
    keywords := obj.package.keywords.getD []
    license := strOrElse obj.package.license "Unknown"
    scoreFinal := round (obj.score.final * 100)
    scoreQuality := round (obj.score.quality * 100)
    scorePopularity := round (obj.score.popularity * 100)
    scoreMaintenance := round (obj.score.maintenance * 100)
    links := obj.package.links.getD []
    publishedAt := obj.package.date }

/-- The filter predicate of line 210,
`pkg.versionInfo?.isStable !== false`: keep a result unless its parsed
version is present with `isStable = false` (an absent `versionInfo`
gives `undefined`, which is not `false`). -/
def keepsUnstableFilter (pkg : SearchResult) : Bool :=
  match pkg.versionInfo with
  | some vi => vi.isStable
  | none => true

/-- Model of the result assembly of `NPMScanner.search`
(lines 185-214): map `data.objects` (missing objects give `[]`), then,
when `includeUnstable` is false, filter out results whose parsed
version is unstable. -/
def searchResults (includeUnstable : Bool) (data : SearchData) :
    List SearchResult :=
  if !includeUnstable then
    ((data.objects.getD []).map mkSearchResult).filter keepsUnstableFilter
  else
    (data.objects.getD []).map mkSearchResult

/-! ## The semantic-version grammar, from the specification's words

For the acceptance claim about `parseVersion`, a second definition
written from the spec sentence — "strict match against the
semantic-version grammar `MAJOR.MINOR.PATCH[-PRERELEASE][+BUILD]`
where MAJOR/MINOR/PATCH are non-negative integers and
PRERELEASE/BUILD are dot-separated alphanumeric-or-hyphen identifier
sequences" — to be compared with the scanner derived from the source
regex. -/

/-- A non-empty run of decimal digits (a non-negative integer). -/
def IsDigits (l : List Char) : Prop :=
  l ≠ [] ∧ ∀ c ∈ l, c.isDigit = true

/-- A non-empty identifier of letters, digits and hyphens. -/
def IsIdent (l : List Char) : Prop :=
  l ≠ [] ∧ ∀ c ∈ l, isIdentChar c = true

/-- Join identifier parts with literal dots:
`joinDots [a, b, c] = a ++ "." ++ b ++ "." ++ c` at the character
level.  `dotsJoin` is the tail — every later part preceded by its
dot. -/
def dotsJoin : List (List Char) → List Char
  | [] => []
  | q :: qs => '.' :: (q ++ dotsJoin qs)

def joinDots : List (List Char) → List Char
  | [] => []
  | q :: qs => q ++ dotsJoin qs

/-- A dot-separated sequence of one or more identifiers. -/
def IsIdentSeq (l : List Char) : Prop :=
  ∃ parts : List (List Char), parts ≠ [] ∧ (∀ q ∈ parts, IsIdent q) ∧
    l = joinDots parts

/-- An optional `[-PRERELEASE]` / `[+BUILD]` suffix with its
introducing character. -/
def optPart (intro : Char) (o : Option (List Char)) : List Char :=
  match o with
  | none => []
  | some l => intro :: l

/-- Head-condition: the list is empty or its head fails `p`. -/
def HeadNot (p : Char → Bool) : List Char → Prop
  | [] => True
  | c :: _ => p c = false

/-- Stop-condition for the identifier-sequence scanner: the remainder
is empty or begins with a character that is neither an identifier
character nor a dot. -/
def SeqStop : List Char → Prop
  | [] => True
  | c :: _ => isIdentChar c = false ∧ c ≠ '.'

/-- The spec grammar `MAJOR.MINOR.PATCH[-PRERELEASE][+BUILD]`. -/
def SemverGrammar (s : String) : Prop :=
  ∃ (maj mnr pat : List Char) (pre bld : Option (List Char)),
    IsDigits maj ∧ IsDigits mnr ∧ IsDigits pat ∧
    (∀ p, pre = some p → IsIdentSeq p) ∧
    (∀ b, bld = some b → IsIdentSeq b) ∧
    s.data =
      maj ++ ('.' :: (mnr ++ ('.' :: (pat ++ (optPart '-' pre ++ optPart '+' bld)))))

/-! ## Concrete runs used by the counterexamples and witnesses -/

/-- A run whose first fetch is a slow network failure (it would reject
at 6000 ms, after the 5000 ms deadline, so the abort timer fires
first), whose second attempt would fail with HTTP 500 and whose third
would succeed. -/
def envC1cex : Nat → AttemptSpec
  | 0 => { duration := 6000, behavior := .reject "ECONNRESET" }
  | 1 => { duration := 10, behavior := .response 500 "Internal Server Error" "" }
  | _ => { duration := 10, behavior := .response 200 "OK" "ok" }

/-- A run whose first attempt fails fast with HTTP 503 and whose
retries fail fast (rejection), the third with HTTP 500. -/
def envC1w : Nat → AttemptSpec
  | 0 => { duration := 10, behavior := .response 503 "Service Unavailable" "" }
  | 1 => { duration := 20, behavior := .reject "ECONNRESET" }
  | _ => { duration := 30, behavior := .response 200 "OK" "payload" }

/-- A run whose first attempt fails fast with HTTP 500 and whose
second attempt takes 10^9 ms — far beyond the 5000 ms timeout — and
then succeeds. -/
def envC2bug : Nat → AttemptSpec
  | 0 => { duration := 10, behavior := .response 500 "Internal Server Error" "" }
  | _ => { duration := 1000000000, behavior := .response 200 "OK" "late-data" }

/-- A cache for the C3 witness. -/
def cacheW : ResultCache Nat :=
  { cache := fun _ => none, ttl := 300000 }

/-- A scan environment for the compare witnesses: `exists-pkg`
resolves, every other name rejects with the not-found message `scan`
produces at line 337. -/
def envScanW : String → Except String Nat := fun n =>
  if n = "exists-pkg" then .ok 7
  else .error ("Package '" ++ n ++ "' not found in NPM registry")

def namesW : List String := ["exists-pkg", "missing-pkg"]

/-- A search hit with a stable release version. -/
def rawStable : RawObject :=
  { package :=
      { name := "lodash", description := some "Lodash modular utilities."
        version := "4.17.21", authorName := some "John-David Dalton"
        publisherUsername := some "bnjmnt4n", keywords := some ["modules", "util"]
        license := some "MIT", links := some [("npm", "x")], date := "2021-02-20" }
    score := { final := 1, quality := 1, popularity := 1, maintenance := 1 } }

/-- A search hit whose version carries a prerelease tag. -/
def rawUnstable : RawObject :=
  { package :=
      { name := "next-canary", description := none
        version := "15.0.0-canary.28", authorName := none
        publisherUsername := some "vercel-release-bot", keywords := none
        license := some "MIT", links := none, date := "2024-08-29" }
    score := { final := 0, quality := 0, popularity := 0, maintenance := 0 } }

/-- A search hit whose version string does not parse as semver. -/
def rawUnparseable : RawObject :=
  { package :=
      { name := "weird-pkg", description := some "odd"
        version := "not-a-version", authorName := none
        publisherUsername := none, keywords := none
        license := none, links := none, date := "2020-01-01" }
    score := { final := 0, quality := 0, popularity := 0, maintenance := 0 } }

/-- A search response holding the three hits above. -/
def searchDataW : SearchData :=
  { objects := some [rawStable, rawUnstable, rawUnparseable] }

/-- The parse of `rawStable`'s version string. -/
def viStable : VersionInfo :=
  { major := 4, minor := 17, patch := 21, prerelease := none, build := none,
    isStable := true }

end Pckgi

namespace Pckgi

/-! ## Helper lemmas -/

theorem length_compare {α : Type} (scanEnv : String → Except String α)
    (names : List String) : (compare scanEnv names).length = names.length := by
  simp [compare]

/-- Unfolding of one iteration of the retry loop. -/
theorem getLoop_succ (timeout retries : Nat) (env : Nat → AttemptSpec)
    (fuel a t : Nat) (timer : TimerState) (sig : Bool) :
    getLoop timeout retries env (fuel + 1) a t timer sig =
      (if sig then
        { result := .error .abortError, waits := [], attempts := a + 1, endTime := t }
      else if timer = TimerState.armed ∧ timeout < t + (env a).duration then
        { result := .error .abortError, waits := [], attempts := a + 1, endTime := timeout }
      else
        match attemptResult (env a).behavior with
        | .ok v =>
            { result := .ok v, waits := [], attempts := a + 1,
              endTime := t + (env a).duration }
        | .error e =>
          if a = retries then
            { result := .error e, waits := [], attempts := a + 1,
              endTime := t + (env a).duration }
          else
            if timer = TimerState.armed ∧ timeout ≤ t + (env a).duration + 2 ^ a * 100 then
              (fun rest => { rest with waits := 2 ^ a * 100 :: rest.waits })
                (getLoop timeout retries env fuel (a + 1)
                  (t + (env a).duration + 2 ^ a * 100) TimerState.fired true)
            else
              (fun rest => { rest with waits := 2 ^ a * 100 :: rest.waits })
                (getLoop timeout retries env fuel (a + 1)
                  (t + (env a).duration + 2 ^ a * 100)
                  (if timer = TimerState.armed then TimerState.cleared else timer) false) :
        GetTrace) := by
  rfl

theorem getLoop_two (timeout retries : Nat) (env : Nat → AttemptSpec)
    (a t : Nat) (timer : TimerState) (sig : Bool) :
    getLoop timeout retries env 2 a t timer sig =
      getLoop timeout retries env (1 + 1) a t timer sig := rfl

theorem getLoop_one (timeout retries : Nat) (env : Nat → AttemptSpec)
    (a t : Nat) (timer : TimerState) (sig : Bool) :
    getLoop timeout retries env 1 a t timer sig =
      getLoop timeout retries env (0 + 1) a t timer sig := rfl

theorem score_calcHealth (d dl : Int) (dep vul : Bool) :
    (calculateHealth d dl dep vul).score =
      if dep then 0 else if vul then 20 else penalizedScore d dl := by
  unfold calculateHealth
  split_ifs <;> rfl

theorem penalizedScore_bounds (d dl : Int) :
    10 ≤ penalizedScore d dl ∧ penalizedScore d dl ≤ 100 := by
  unfold penalizedScore ageScore
  split_ifs <;> omega

/-! ## Claim C1 (corrected)

The claim lists a timeout among the failures after which `get` backs
off and retries, but line 43 breaks out of the loop on any
`AbortError`, so a timed-out first attempt is never retried: the
counterexample below times out on attempt 0 while attempt 2 would
succeed, and `get` throws after one attempt with no backoff.  The
amended claim restricts the retried failures to network errors and
non-2xx responses. -/

/-- Claim C1, counterexample: with `retries = 2` and `timeout = 5000`,
a run whose first attempt fails by timeout, whose second attempt would
fail with HTTP 500 and whose third would succeed does NOT return the
third attempt's result after backoffs of 100 ms and 200 ms — it
propagates the abort error after a single attempt with no backoff
waits at all. -/
theorem claim_C1_counterexample :
    (({ timeout := 5000, retries := 2 } : HttpClient).get envC1cex).result =
      .error .abortError ∧
    (({ timeout := 5000, retries := 2 } : HttpClient).get envC1cex).attempts = 1 ∧
    (({ timeout := 5000, retries := 2 } : HttpClient).get envC1cex).waits = [] :=
  ⟨rfl, rfl, rfl⟩

/-- Claim C1, amended: for a client with `retries = 2`, if the first
two attempts fail with NON-ABORT errors (network error or non-2xx
status) and the timing leaves the single abort timer unfired through
the first iteration (after which line 50 has cleared it), then a
successful third attempt's parsed result is returned after backoff
waits of `2^0*100 = 100` ms and `2^1*100 = 200` ms, and if the third
attempt also fails with a non-abort error, its error — the last
attempt's — is propagated, after the same two waits. -/
theorem claim_C1_amended (timeout : Nat) (env : Nat → AttemptSpec) (e0 e1 : ReqError)
    (h0 : attemptResult (env 0).behavior = .error e0)
    (h1 : attemptResult (env 1).behavior = .error e1)
    (hsafe : (env 0).duration + 100 < timeout) :
    (∀ v, attemptResult (env 2).behavior = .ok v →
      HttpClient.get { timeout := timeout, retries := 2 } env =
        { result := .ok v, waits := [100, 200], attempts := 3,
          endTime := (env 0).duration + 100 + (env 1).duration + 200 + (env 2).duration }) ∧
    (∀ e2, attemptResult (env 2).behavior = .error e2 →
      HttpClient.get { timeout := timeout, retries := 2 } env =
        { result := .error e2, waits := [100, 200], attempts := 3,
          endTime := (env 0).duration + 100 + (env 1).duration + 200 + (env 2).duration }) := by
  have c1 : ¬ timeout < 0 + (env 0).duration := by omega
  have c2 : ¬ timeout ≤ 0 + (env 0).duration + 2 ^ 0 * 100 := by
    simp only [pow_zero, one_mul, Nat.zero_add]
    omega
  constructor
  · intro v h2
    show getLoop timeout 2 env (2 + 1) 0 0 TimerState.armed false = _
    rw [getLoop_succ]
    simp only [h0, c1, c2, if_false, Bool.false_eq_true, true_and, eq_self_iff_true,
      if_true, ite_false, ite_true]
    rw [if_neg (by omega : ¬(0 = 2))]
    rw [getLoop_two, getLoop_succ]
    simp only [h1, Bool.false_eq_true, if_false, ite_false,
      show (TimerState.cleared = TimerState.armed) = False by simp, false_and]
    rw [if_neg (by omega : ¬(0 + 1 = 2))]
    rw [getLoop_one, getLoop_succ]
    simp only [h2, Bool.false_eq_true, if_false, ite_false,
      show (TimerState.cleared = TimerState.armed) = False by simp, false_and]
    norm_num [GetTrace.mk.injEq]
  · intro e2 h2
    show getLoop timeout 2 env (2 + 1) 0 0 TimerState.armed false = _
    rw [getLoop_succ]
    simp only [h0, c1, c2, if_false, Bool.false_eq_true, true_and, eq_self_iff_true,
      if_true, ite_false, ite_true]
    rw [if_neg (by omega : ¬(0 = 2))]
    rw [getLoop_two, getLoop_succ]
    simp only [h1, Bool.false_eq_true, if_false, ite_false,
      show (TimerState.cleared = TimerState.armed) = False by simp, false_and]
    rw [if_neg (by omega : ¬(0 + 1 = 2))]
    rw [getLoop_one, getLoop_succ]
    simp only [h2, Bool.false_eq_true, if_false, ite_false,
      show (TimerState.cleared = TimerState.armed) = False by simp, false_and]
    norm_num [GetTrace.mk.injEq]

/-- Claim C1, witness for the amended theorem: a concrete run (503,
then a rejection, then success at 200 with 10/20/30 ms attempts under
a 5000 ms timeout) returns the third attempt's body after waits of
100 ms and 200 ms, finishing at 10 + 100 + 20 + 200 + 30 = 360 ms. -/
theorem claim_C1_amended_witness :
    HttpClient.get { timeout := 5000, retries := 2 } envC1w =
      { result := .ok ("payload", 200), waits := [100, 200], attempts := 3,
        endTime := 360 } := by
  have h := (claim_C1_amended 5000 envC1w (.httpError 503 "Service Unavailable")
      (.netError "ECONNRESET") (by rfl) (by rfl)
      (by norm_num [envC1w])).1 ("payload", 200) (by rfl)
  simpa [envC1w] using h

/-! ## Claim C2 (code bug)

The claim (and §4.2 of the specification) says every attempt starts
its own cancellation timer of `timeout` ms.  The source arms a single
timer before the loop (line 16) and `clearTimeout`s it in the loop's
`finally` (line 50), which runs at the end of the FIRST iteration —
so every retried attempt runs with no timeout at all.  The run
`envC2bug` exhibits it: the second attempt takes 10^9 ms against a
5000 ms timeout and is never aborted. -/

/-- Claim C2, evaluation at the failing input: with `timeout = 5000`,
after a fast HTTP 500 on attempt 0 and a 100 ms backoff, attempt 1
takes 10^9 ms — 200000 times the timeout — and still completes
successfully at absolute time 1000000110 instead of being aborted at
5100 + 5000 or treated as a timeout error; no abort happens although
the attempt far exceeds the client's timeout. -/
theorem claim_C2_bug_eval :
    ({ timeout := 5000, retries := 2 } : HttpClient).get envC2bug =
      { result := .ok ("late-data", 200), waits := [100], attempts := 2,
        endTime := 1000000110 } ∧
    5000 < (envC2bug 1).duration := by
  exact ⟨rfl, by norm_num [envC2bug]⟩

/-- Claim C3: `set(k,v)` followed by a `get(k)` no later than `ttl`
after it (immediately in particular) returns `v`; `get` returns the
stored value when the entry is fresh (`now - insertedAt ≤ ttl`) and
leaves the cache unchanged; an expired entry is removed by `get`
itself — no other key is touched — and reported absent; a missing key
is reported absent without change; and `set` always overwrites the
entry for its key with insertion time `now`, touching no other key. -/
theorem claim_C3_cache (V : Type) (c : ResultCache V) (k : String) (v : V)
    (now ts t t2 : Nat) :
    (t2 - t ≤ c.ttl → ((c.set k v t).get k t2).1 = some v) ∧
    (c.cache k = none → c.get k now = (none, c)) ∧
    (∀ d, c.cache k = some (d, ts) → now - ts ≤ c.ttl →
      c.get k now = (some d, c)) ∧
    (∀ d, c.cache k = some (d, ts) → now - ts > c.ttl →
      (c.get k now).1 = none ∧ ((c.get k now).2).cache k = none ∧
      ∀ k2, k2 ≠ k → ((c.get k now).2).cache k2 = c.cache k2) ∧
    ((c.set k v now).cache k = some (v, now) ∧
      ∀ k2, k2 ≠ k → (c.set k v now).cache k2 = c.cache k2) := by
  refine ⟨?_, ?_, ?_, ?_, ?_, ?_⟩
  · intro h
    simp [ResultCache.get, ResultCache.set, Nat.not_lt.mpr h]
  · intro h
    simp [ResultCache.get, h]
  · intro d h hle
    simp [ResultCache.get, h, Nat.not_lt.mpr hle]
  · intro d h hgt
    refine ⟨by simp [ResultCache.get, h, hgt], by simp [ResultCache.get, h, hgt], ?_⟩
    intro k2 hk2
    simp [ResultCache.get, h, hgt, hk2]
  · simp [ResultCache.set]
  · intro k2 hk2
    simp [ResultCache.set, hk2]

/-- Claim C3, witness: on a concrete empty cache with `ttl = 300000`,
setting a key at time 1000 and reading it back at time 1000 returns
the stored value. -/
theorem claim_C3_cache_witness :
    ((cacheW.set "scan:lodash" 7 1000).get "scan:lodash" 1000).1 = some 7 :=
  (claim_C3_cache Nat cacheW "scan:lodash" 7 0 0 1000 1000).1 (by decide)

/-- Claim C4, counterexample: at exactly `daysSinceUpdate = 1095` the
strict `> 1095` check of line 102 does not fire, only the `> 730`
penalty of `-40` applies, and with a million downloads the score is
`60` — not `≤ 40` as the claim states for all `daysSinceUpdate ≥ 1095`. -/
theorem claim_C4_counterexample :
    (calculateHealth 1095 1000000 false false).score = 60 ∧
    ¬(calculateHealth 1095 1000000 false false).score ≤ 40 := by
  decide

/-- Claim C4, amended: for every `daysSinceUpdate` STRICTLY greater
than 1095, with the deprecated and vulnerable short-circuits off, the
score is at most 40 regardless of downloads (the `-60` age penalty
leaves 40, and the download penalty only subtracts further). -/
theorem claim_C4_amended (d dl : Int) (h : 1095 < d) :
    (calculateHealth d dl false false).score ≤ 40 := by
  rw [score_calcHealth]
  simp only [Bool.false_eq_true, if_false]
  unfold penalizedScore ageScore
  rw [if_pos (by omega : d > 1095)]
  split_ifs <;> omega

/-- Claim C4, witness for the amended theorem: at 2000 days and a
million downloads the score is at most 40. -/
theorem claim_C4_amended_witness :
    (calculateHealth 2000 1000000 false false).score ≤ 40 :=
  claim_C4_amended 2000 1000000 (by norm_num)

/-- Claim C5: `calculateHealth` with `isDeprecated = true` returns
`status "deprecated", score 0` whatever the other three inputs are,
and with `isDeprecated = false, hasVulnerabilities = true` it returns
`status "vulnerable", score 20` whatever the numeric inputs are. -/
theorem claim_C5_shortcircuits (d dl : Int) (v : Bool) :
    calculateHealth d dl true v = { status := "deprecated", score := 0 } ∧
    calculateHealth d dl false true = { status := "vulnerable", score := 20 } := by
  constructor <;> rfl

/-- Claim C7: with `includeUnstable = false`, no entry of the search
result list has a parsed version with `isStable = false`, and every
mapped entry whose version string failed to parse (so `versionInfo`
is absent and the filter reads `undefined`, not `false`) is kept. -/
theorem claim_C7_filter (data : SearchData) :
    (∀ e ∈ searchResults false data, ∀ vi, e.versionInfo = some vi →
      vi.isStable = true) ∧
    (∀ obj ∈ data.objects.getD [], (mkSearchResult obj).versionInfo = none →
      mkSearchResult obj ∈ searchResults false data) := by
  constructor
  · intro e he vi hvi
    have hk : keepsUnstableFilter e = true := by
      simp only [searchResults, Bool.not_false, if_true, ite_true] at he
      exact List.of_mem_filter he
    simpa [keepsUnstableFilter, hvi] using hk
  · intro obj hobj hnone
    simp only [searchResults, Bool.not_false, if_true, ite_true]
    refine List.mem_filter.mpr ⟨List.mem_map_of_mem _ hobj, ?_⟩
    simp [keepsUnstableFilter, hnone]

/-- Claim C7, witness: in a concrete search response holding a stable
release, a canary prerelease and an unparseable version, the stable
entry passes the filter with `isStable = true`, and the unparseable
entry is kept in the filtered result. -/
theorem claim_C7_filter_witness :
    viStable.isStable = true ∧
    mkSearchResult rawUnparseable ∈ searchResults false searchDataW := by
  constructor
  · exact (claim_C7_filter searchDataW).1 (mkSearchResult rawStable)
      (by rw [show searchResults false searchDataW =
            [mkSearchResult rawStable, mkSearchResult rawUnparseable] from rfl]
          exact List.mem_cons_self _ _)
      viStable (by decide)
  · exact (claim_C7_filter searchDataW).2 rawUnparseable
      (by rw [show searchDataW.objects.getD [] =
            [rawStable, rawUnstable, rawUnparseable] from rfl]
          simp)
      (by rfl)

/-- Claim C8: `compare` returns a list of exactly one entry per input
name; the entry at index `i` is determined by name `i` and its own
scan outcome alone — the successful report with `success = true` when
the scan resolves, or a failure marker carrying that scan's error
message with `data = null` when it rejects — so one package's failure
cannot abort the batch or change any other entry. -/
theorem claim_C8_isolation {α : Type} (scanEnv : String → Except String α)
    (names : List String) (i : Nat) (h : i < names.length) :
    (compare scanEnv names).length = names.length ∧
    (compare scanEnv names)[i]? =
      some (compareEntryOf names[i] (scanEnv names[i])) := by
  refine ⟨length_compare scanEnv names, ?_⟩
  rw [List.getElem?_eq_getElem (by simpa [length_compare] using h)]
  simp only [compare, allSettled, List.getElem_mapIdx, List.map_map,
    List.getElem?_map, List.getElem?_eq_getElem h]
  cases h2 : scanEnv names[i] <;> simp [compareEntryOf, h2]

/-- Claim C8, witness: comparing `["exists-pkg", "missing-pkg"]`
against a registry where only the first exists yields two entries —
a successful report and a failure marker with the not-found message —
without failing as a whole. -/
theorem claim_C8_isolation_witness :
    (compare envScanW namesW).length = 2 ∧
    (compare envScanW namesW)[0]? =
      some { name := "exists-pkg", success := true, data := some 7, error := none } ∧
    (compare envScanW namesW)[1]? =
      some { name := "missing-pkg", success := false, data := none,
             error := some "Package 'missing-pkg' not found in NPM registry" } := by
  refine ⟨(claim_C8_isolation envScanW namesW 0 (by decide)).1, ?_, ?_⟩
  · rw [(claim_C8_isolation envScanW namesW 0 (by decide)).2]
    rfl
  · rw [(claim_C8_isolation envScanW namesW 1 (by decide)).2]
    rfl

/-- Claim C9: the list `compare` returns has exactly the length of the
input list and the entry at every index `i` carries the `i`-th input
name — input order is preserved even though `allSettled` only joins
the scans. -/
theorem claim_C9_order {α : Type} (scanEnv : String → Except String α)
    (names : List String) :
    (compare scanEnv names).length = names.length ∧
    ∀ i (h : i < names.length),
      ((compare scanEnv names)[i]?.map fun e => e.name) = some names[i] := by
  refine ⟨length_compare scanEnv names, ?_⟩
  intro i h
  rw [List.getElem?_eq_getElem (by simpa [length_compare] using h)]
  simp only [compare, allSettled, List.getElem_mapIdx, List.map_map,
    List.getElem?_map, List.getElem?_eq_getElem h]
  cases h2 : scanEnv names[i] <;> simp [h2]

/-- Claim C9, witness: the second entry of the concrete comparison is
named after the second input. -/
theorem claim_C9_order_witness :
    ((compare envScanW namesW)[1]?.map fun e => e.name) = some "missing-pkg" :=
  (claim_C9_order envScanW namesW).2 1 (by decide)

/-- Claim C10: for every combination of inputs the score lies in
`[0, 100]`, and when neither short-circuit applies it is at least
`100 - 60 - 30 = 10`. -/
theorem claim_C10_range (d dl : Int) (dep vul : Bool) :
    (0 ≤ (calculateHealth d dl dep vul).score ∧
      (calculateHealth d dl dep vul).score ≤ 100) ∧
    (dep = false → vul = false → 10 ≤ (calculateHealth d dl dep vul).score) := by
  rw [score_calcHealth]
  have hb := penalizedScore_bounds d dl
  cases dep <;> cases vul <;> (simp; try omega)

/-- Claim C10, witness: a deprecated package's score 0 is within
range, and for a fresh input with no short-circuit the score is at
least 10. -/
theorem claim_C10_range_witness :
    (0 ≤ (calculateHealth 4000 0 false false).score ∧
      (calculateHealth 4000 0 false false).score ≤ 100) ∧
    10 ≤ (calculateHealth 4000 0 false false).score :=
  ⟨(claim_C10_range 4000 0 false false).1,
    (claim_C10_range 4000 0 false false).2 rfl rfl⟩

end Pckgi


namespace Pckgi

/-! ## Claim C6: the semver scanner against the spec grammar -/

theorem mem_takeWhile (p : Char → Bool) (l : List Char) :
    ∀ c ∈ l.takeWhile p, p c = true := by
  induction l with
  | nil => simp
  | cons a t ih =>
    intro c hc
    by_cases ha : p a
    · rw [List.takeWhile_cons_of_pos ha] at hc
      rcases List.mem_cons.mp hc with rfl | hc2
      · exact ha
      · exact ih c hc2
    · rw [List.takeWhile_cons_of_neg ha] at hc
      simp at hc

theorem headNot_dropWhile (p : Char → Bool) (l : List Char) :
    HeadNot p (l.dropWhile p) := by
  induction l with
  | nil => trivial
  | cons a t ih =>
    by_cases ha : p a
    · rw [List.dropWhile_cons_of_pos ha]
      exact ih
    · rw [List.dropWhile_cons_of_neg ha]
      simpa [HeadNot] using ha

theorem takeWhile_append_eq (p : Char → Bool) (a b : List Char)
    (ha : ∀ c ∈ a, p c = true) (hb : HeadNot p b) :
    (a ++ b).takeWhile p = a ∧ (a ++ b).dropWhile p = b := by
  induction a with
  | nil =>
    simp only [List.nil_append]
    cases b with
    | nil => simp
    | cons c t =>
      simp only [HeadNot] at hb
      rw [List.takeWhile_cons_of_neg (by simp [hb]),
        List.dropWhile_cons_of_neg (by simp [hb])]
      exact ⟨rfl, rfl⟩
  | cons x xs ih =>
    have hx : p x = true := ha x (by simp)
    have ih2 := ih (fun c hc => ha c (by simp [hc]))
    simp only [List.cons_append]
    rw [List.takeWhile_cons_of_pos hx, List.dropWhile_cons_of_pos hx]
    exact ⟨by rw [ih2.1], ih2.2⟩

theorem dotIdents_nil (fuel : Nat) : dotIdents fuel [] = ([], []) := by
  cases fuel <;> rfl

theorem dotIdents_cons (fuel : Nat) (c : Char) (rest : List Char) :
    dotIdents (fuel + 1) (c :: rest) =
      if c = '.' then
        if (rest.takeWhile isIdentChar).isEmpty then ([], c :: rest)
        else
          (fun p => (c :: (rest.takeWhile isIdentChar ++ p.1), p.2))
            (dotIdents fuel (rest.dropWhile isIdentChar))
      else ([], c :: rest) := rfl

theorem dotIdents_stop (fuel : Nat) (l : List Char) (h : SeqStop l) :
    dotIdents fuel l = ([], l) := by
  cases fuel with
  | zero => rfl
  | succ f =>
    cases l with
    | nil => exact dotIdents_nil (f + 1)
    | cons c t =>
      obtain ⟨h1, h2⟩ := h
      rw [dotIdents_cons, if_neg h2]

theorem headNot_dotsJoin_append (qs : List (List Char)) (rest : List Char)
    (hrest : SeqStop rest) :
    HeadNot isIdentChar (dotsJoin qs ++ rest) := by
  cases qs with
  | nil =>
    simp only [dotsJoin, List.nil_append]
    cases rest with
    | nil => trivial
    | cons c t => exact hrest.1
  | cons q qs2 =>
    simp only [dotsJoin, List.cons_append]
    show isIdentChar '.' = false
    decide

theorem dotIdents_dotsJoin (parts : List (List Char)) (rest : List Char)
    (fuel : Nat) (hfuel : (dotsJoin parts ++ rest).length ≤ fuel)
    (hparts : ∀ q ∈ parts, IsIdent q) (hrest : SeqStop rest) :
    dotIdents fuel (dotsJoin parts ++ rest) = (dotsJoin parts, rest) := by
  induction parts generalizing fuel with
  | nil =>
    simp only [dotsJoin, List.nil_append]
    exact dotIdents_stop fuel rest hrest
  | cons q qs ih =>
    obtain ⟨hqne, hqid⟩ := hparts q (by simp)
    have hspan := takeWhile_append_eq isIdentChar q (dotsJoin qs ++ rest) hqid
      (headNot_dotsJoin_append qs rest hrest)
    have hshape : dotsJoin (q :: qs) ++ rest = '.' :: (q ++ (dotsJoin qs ++ rest)) := by
      simp [dotsJoin, List.append_assoc]
    rw [hshape] at hfuel ⊢
    cases fuel with
    | zero => simp at hfuel
    | succ f =>
      rw [dotIdents_cons, if_pos rfl, hspan.1, hspan.2]
      rw [if_neg (by simpa [List.isEmpty_iff] using hqne)]
      have hlen : (dotsJoin qs ++ rest).length ≤ f := by
        have hq1 : 1 ≤ q.length := by
          cases q with
          | nil => exact absurd rfl hqne
          | cons a b => simp
        simp only [List.length_cons, List.length_append] at hfuel ⊢
        omega
      rw [ih f hlen (fun p hp => hparts p (by simp [hp]))]
      simp [dotsJoin]

theorem identSeq_build (parts : List (List Char)) (rest : List Char)
    (hne : parts ≠ []) (hparts : ∀ q ∈ parts, IsIdent q) (hrest : SeqStop rest) :
    identSeq (joinDots parts ++ rest) = some (joinDots parts, rest) := by
  cases parts with
  | nil => exact absurd rfl hne
  | cons q qs =>
    obtain ⟨hqne, hqid⟩ := hparts q (by simp)
    have hshape : joinDots (q :: qs) ++ rest = q ++ (dotsJoin qs ++ rest) := by
      simp [joinDots, List.append_assoc]
    have hspan := takeWhile_append_eq isIdentChar q (dotsJoin qs ++ rest) hqid
      (headNot_dotsJoin_append qs rest hrest)
    rw [hshape]
    unfold identSeq
    rw [hspan.1, hspan.2]
    rw [if_neg (by simpa [List.isEmpty_iff] using hqne)]
    rw [dotIdents_dotsJoin qs rest (dotsJoin qs ++ rest).length le_rfl
      (fun p hp => hparts p (by simp [hp])) hrest]
    simp [joinDots]

theorem dotIdents_sound (fuel : Nat) (l : List Char) :
    (∃ parts, (∀ q ∈ parts, IsIdent q) ∧ (dotIdents fuel l).1 = dotsJoin parts) ∧
    l = (dotIdents fuel l).1 ++ (dotIdents fuel l).2 := by
  induction fuel generalizing l with
  | zero => exact ⟨⟨[], by simp, rfl⟩, rfl⟩
  | succ f ih =>
    cases l with
    | nil =>
      rw [dotIdents_nil]
      exact ⟨⟨[], by simp, rfl⟩, rfl⟩
    | cons c t =>
      by_cases hc : c = '.'
      · subst hc
        rw [dotIdents_cons]
        by_cases he : (t.takeWhile isIdentChar).isEmpty
        · rw [if_pos rfl, if_pos he]
          exact ⟨⟨[], by simp, rfl⟩, rfl⟩
        · rw [if_pos rfl, if_neg he]
          obtain ⟨⟨parts, hp1, hp2⟩, hsplit⟩ := ih (t.dropWhile isIdentChar)
          constructor
          · refine ⟨t.takeWhile isIdentChar :: parts, ?_, ?_⟩
            · intro q hq
              rcases List.mem_cons.mp hq with rfl | hq2
              · exact ⟨by simpa [List.isEmpty_iff] using he, mem_takeWhile _ t⟩
              · exact hp1 q hq2
            · simp only [dotsJoin, hp2]
          · show ('.' : Char) :: t = _
            have ht : t = t.takeWhile isIdentChar ++
                ((dotIdents f (t.dropWhile isIdentChar)).1 ++
                  (dotIdents f (t.dropWhile isIdentChar)).2) := by
              conv_lhs => rw [← List.takeWhile_append_dropWhile (p := isIdentChar) (l := t)]
              rw [← hsplit]
            simp only [List.cons_append, List.append_assoc]
            rw [← ht]
      · rw [dotIdents_cons, if_neg hc]
        exact ⟨⟨[], by simp, rfl⟩, rfl⟩

theorem identSeq_sound (l m r : List Char) (h : identSeq l = some (m, r)) :
    l = m ++ r ∧ IsIdentSeq m := by
  unfold identSeq at h
  by_cases he : (l.takeWhile isIdentChar).isEmpty
  · rw [if_pos he] at h
    cases h
  · rw [if_neg he] at h
    simp only [Option.some.injEq, Prod.mk.injEq] at h
    obtain ⟨hm, hr⟩ := h
    obtain ⟨⟨parts, hp1, hp2⟩, hsplit⟩ :=
      dotIdents_sound (l.dropWhile isIdentChar).length (l.dropWhile isIdentChar)
    constructor
    · rw [← hm, ← hr]
      conv_lhs => rw [← List.takeWhile_append_dropWhile (p := isIdentChar) (l := l)]
      rw [List.append_assoc, ← hsplit]
    · refine ⟨l.takeWhile isIdentChar :: parts, by simp, ?_, ?_⟩
      · intro q hq
        rcases List.mem_cons.mp hq with rfl | hq2
        · exact ⟨by simpa [List.isEmpty_iff] using he, mem_takeWhile _ l⟩
        · exact hp1 q hq2
      · rw [← hm]
        simp only [joinDots]
        rw [hp2]

theorem optGroup_nil (intro : Char) : optGroup intro [] = some (none, []) := rfl

theorem optGroup_cons (intro c : Char) (t : List Char) :
    optGroup intro (c :: t) =
      (if c = intro then (identSeq t).map (fun p => (some p.1, p.2))
       else some (none, c :: t)) := rfl

theorem optGroup_skip (intro : Char) (l : List Char)
    (hl : l = [] ∨ ∃ c t, l = c :: t ∧ c ≠ intro) :
    optGroup intro l = some (none, l) := by
  rcases hl with rfl | ⟨c, t, rfl, hc⟩
  · rfl
  · rw [optGroup_cons, if_neg hc]

theorem optGroup_take (intro : Char) (parts : List (List Char)) (rest : List Char)
    (hne : parts ≠ []) (hparts : ∀ q ∈ parts, IsIdent q) (hrest : SeqStop rest) :
    optGroup intro (intro :: (joinDots parts ++ rest)) =
      some (some (joinDots parts), rest) := by
  rw [optGroup_cons, if_pos rfl, identSeq_build parts rest hne hparts hrest]
  rfl

theorem optGroup_sound (intro : Char) (l : List Char) (o : Option (List Char))
    (r : List Char) (h : optGroup intro l = some (o, r)) :
    (o = none ∧ r = l) ∨
    ∃ ids, o = some ids ∧ IsIdentSeq ids ∧ l = intro :: (ids ++ r) := by
  cases l with
  | nil =>
    rw [optGroup_nil] at h
    simp only [Option.some.injEq, Prod.mk.injEq] at h
    exact Or.inl ⟨h.1.symm, h.2.symm⟩
  | cons c t =>
    rw [optGroup_cons] at h
    by_cases hc : c = intro
    · rw [if_pos hc] at h
      cases hseq : identSeq t with
      | none => rw [hseq] at h; cases h
      | some p =>
        rw [hseq] at h
        obtain ⟨ids, r2⟩ := p
        simp only [Option.map_some', Option.some.injEq, Prod.mk.injEq] at h
        obtain ⟨hso, hsr⟩ := h
        obtain ⟨hsplit, hseqm⟩ := identSeq_sound t ids r2 hseq
        refine Or.inr ⟨ids, hso.symm, hseqm, ?_⟩
        rw [hc, hsplit, hsr]
    · rw [if_neg hc] at h
      simp only [Option.some.injEq, Prod.mk.injEq] at h
      exact Or.inl ⟨h.1.symm, h.2.symm⟩

end Pckgi

namespace Pckgi

theorem parseDot1_nil (maj : List Char) : parseDot1 maj [] = none := rfl

theorem parseDot1_cons (maj : List Char) (c1 : Char) (r2 : List Char) :
    parseDot1 maj (c1 :: r2) =
      (if c1 = '.' then parseMinorPart maj r2 else none) := rfl

theorem parseDot2_nil (maj mnr : List Char) : parseDot2 maj mnr [] = none := rfl

theorem parseDot2_cons (maj mnr : List Char) (c2 : Char) (r4 : List Char) :
    parseDot2 maj mnr (c2 :: r4) =
      (if c2 = '.' then parsePatchPart maj mnr r4 else none) := rfl

/-- Soundness of the scanner against the spec grammar: an accepted
string has a grammar decomposition. -/
theorem parseVersion_sound (s : String) (h : (parseVersion s).isSome = true) :
    SemverGrammar s := by
  unfold parseVersion at h
  by_cases he1 : (s.data.takeWhile Char.isDigit).isEmpty
  · rw [if_pos he1] at h
    simp at h
  · rw [if_neg he1] at h
    have hsplit1 : s.data = s.data.takeWhile Char.isDigit ++ s.data.dropWhile Char.isDigit :=
      (List.takeWhile_append_dropWhile (p := Char.isDigit) (l := s.data)).symm
    cases hr1 : s.data.dropWhile Char.isDigit with
    | nil => rw [hr1, parseDot1_nil] at h; simp at h
    | cons c1 r2 =>
      rw [hr1, parseDot1_cons] at h
      by_cases hc1 : c1 = '.'
      swap
      · rw [if_neg hc1] at h; simp at h
      rw [if_pos hc1] at h
      unfold parseMinorPart at h
      by_cases he2 : (r2.takeWhile Char.isDigit).isEmpty
      · rw [if_pos he2] at h; simp at h
      rw [if_neg he2] at h
      have hsplit2 : r2 = r2.takeWhile Char.isDigit ++ r2.dropWhile Char.isDigit :=
        (List.takeWhile_append_dropWhile (p := Char.isDigit) (l := r2)).symm
      cases hr3 : r2.dropWhile Char.isDigit with
      | nil => rw [hr3, parseDot2_nil] at h; simp at h
      | cons c2 r4 =>
        rw [hr3, parseDot2_cons] at h
        by_cases hc2 : c2 = '.'
        swap
        · rw [if_neg hc2] at h; simp at h
        rw [if_pos hc2] at h
        unfold parsePatchPart at h
        by_cases he3 : (r4.takeWhile Char.isDigit).isEmpty
        · rw [if_pos he3] at h; simp at h
        rw [if_neg he3] at h
        have hsplit3 : r4 = r4.takeWhile Char.isDigit ++ r4.dropWhile Char.isDigit :=
          (List.takeWhile_append_dropWhile (p := Char.isDigit) (l := r4)).symm
        unfold afterPatch at h
        cases hog1 : optGroup '-' (r4.dropWhile Char.isDigit) with
        | none => rw [hog1, Option.none_bind'] at h; simp at h
        | some pr =>
          rw [hog1, Option.some_bind'] at h
          cases hog2 : optGroup '+' pr.2 with
          | none => rw [hog2, Option.none_bind'] at h; simp at h
          | some br =>
            rw [hog2, Option.some_bind'] at h
            by_cases hend : br.2.isEmpty
            swap
            · rw [if_neg hend] at h; simp at h
            have hnil : br.2 = [] := List.isEmpty_iff.mp hend
            -- assemble the decomposition
            refine ⟨s.data.takeWhile Char.isDigit, r2.takeWhile Char.isDigit,
              r4.takeWhile Char.isDigit, pr.1, br.1,
              ⟨by simpa [List.isEmpty_iff] using he1, mem_takeWhile _ _⟩,
              ⟨by simpa [List.isEmpty_iff] using he2, mem_takeWhile _ _⟩,
              ⟨by simpa [List.isEmpty_iff] using he3, mem_takeWhile _ _⟩,
              ?_, ?_, ?_⟩
            · intro p hp
              rcases optGroup_sound _ _ _ _ hog1 with ⟨hnone, -⟩ | ⟨ids, hsome, hseq, -⟩
              · rw [hnone] at hp; cases hp
              · rw [hsome] at hp
                cases hp
                exact hseq
            · intro b hb
              rcases optGroup_sound _ _ _ _ hog2 with ⟨hnone, -⟩ | ⟨ids, hsome, hseq, -⟩
              · rw [hnone] at hb; cases hb
              · rw [hsome] at hb
                cases hb
                exact hseq
            · -- the concatenation identity
              have hr5 : r4.dropWhile Char.isDigit = optPart '-' pr.1 ++ pr.2 := by
                rcases optGroup_sound _ _ _ _ hog1 with ⟨hnone, hrr⟩ | ⟨ids, hsome, -, hl⟩
                · rw [hnone, hrr]
                  rfl
                · rw [hsome, hl]
                  rfl
              have hr6 : pr.2 = optPart '+' br.1 ++ br.2 := by
                rcases optGroup_sound _ _ _ _ hog2 with ⟨hnone, hrr⟩ | ⟨ids, hsome, -, hl⟩
                · rw [hnone, hrr]
                  rfl
                · rw [hsome, hl]
                  rfl
              conv_lhs => rw [hsplit1, hr1, hsplit2, hr3, hsplit3, hr5, hr6, hnil, hc1, hc2]
              simp only [List.append_assoc, List.append_nil]

end Pckgi

namespace Pckgi

theorem isDigit_dot_false : Char.isDigit '.' = false := rfl

/-- Completeness of the scanner against the spec grammar: a string
with a grammar decomposition is accepted. -/
theorem parseVersion_complete (s : String) (h : SemverGrammar s) :
    (parseVersion s).isSome = true := by
  obtain ⟨maj, mnr, pat, pre, bld, hmaj, hmnr, hpat, hpre, hbld, heq⟩ := h
  -- the remainder after PATCH and the stop facts about its head
  have hpreStop : SeqStop (optPart '+' bld) := by
    cases bld with
    | none => trivial
    | some b => exact ⟨by decide, by decide⟩
  have hr5head : HeadNot Char.isDigit (optPart '-' pre ++ optPart '+' bld) := by
    cases pre with
    | none =>
      cases bld with
      | none => trivial
      | some b => exact (by decide : Char.isDigit '+' = false)
    | some p => exact (by decide : Char.isDigit '-' = false)
  have hsp3 := takeWhile_append_eq Char.isDigit pat
    (optPart '-' pre ++ optPart '+' bld) hpat.2 hr5head
  have hsp2 := takeWhile_append_eq Char.isDigit mnr
    ('.' :: (pat ++ (optPart '-' pre ++ optPart '+' bld))) hmnr.2
    (by exact isDigit_dot_false)
  have hsp1 := takeWhile_append_eq Char.isDigit maj
    ('.' :: (mnr ++ ('.' :: (pat ++ (optPart '-' pre ++ optPart '+' bld))))) hmaj.2
    (by exact isDigit_dot_false)
  unfold parseVersion
  rw [heq, hsp1.1, hsp1.2]
  rw [if_neg (by simpa [List.isEmpty_iff] using hmaj.1)]
  rw [parseDot1_cons, if_pos rfl]
  unfold parseMinorPart
  rw [hsp2.1, hsp2.2]
  rw [if_neg (by simpa [List.isEmpty_iff] using hmnr.1)]
  rw [parseDot2_cons, if_pos rfl]
  unfold parsePatchPart
  rw [hsp3.1, hsp3.2]
  rw [if_neg (by simpa [List.isEmpty_iff] using hpat.1)]
  unfold afterPatch
  have hog1 : optGroup '-' (optPart '-' pre ++ optPart '+' bld) =
      some (pre, optPart '+' bld) := by
    cases pre with
    | none =>
      simp only [optPart, List.nil_append]
      apply optGroup_skip
      cases bld with
      | none => exact Or.inl rfl
      | some b => exact Or.inr ⟨'+', b, rfl, by decide⟩
    | some p =>
      obtain ⟨parts, hne, hparts, hjoin⟩ := hpre p rfl
      simp only [optPart, List.cons_append]
      rw [hjoin]
      exact optGroup_take '-' parts (optPart '+' bld) hne hparts hpreStop
  rw [hog1, Option.some_bind']
  have hog2 : optGroup '+' (optPart '+' bld) = some (bld, []) := by
    cases bld with
    | none => exact optGroup_nil '+'
    | some b =>
      obtain ⟨parts, hne, hparts, hjoin⟩ := hbld b rfl
      simp only [optPart]
      rw [hjoin]
      conv_lhs => rw [show joinDots parts = joinDots parts ++ [] from by simp]
      exact optGroup_take '+' parts [] hne hparts trivial
  rw [hog2, Option.some_bind']
  simp

end Pckgi

namespace Pckgi

theorem parseVersion_stable_iff (s : String) (vi : VersionInfo)
    (h : parseVersion s = some vi) :
    (vi.isStable = true ↔ vi.prerelease = none) := by
  unfold parseVersion at h
  by_cases he1 : (s.data.takeWhile Char.isDigit).isEmpty
  · rw [if_pos he1] at h; cases h
  rw [if_neg he1] at h
  cases hr1 : s.data.dropWhile Char.isDigit with
  | nil => rw [hr1, parseDot1_nil] at h; cases h
  | cons c1 r2 =>
    rw [hr1, parseDot1_cons] at h
    by_cases hc1 : c1 = '.'
    swap
    · rw [if_neg hc1] at h; cases h
    rw [if_pos hc1] at h
    unfold parseMinorPart at h
    by_cases he2 : (r2.takeWhile Char.isDigit).isEmpty
    · rw [if_pos he2] at h; cases h
    rw [if_neg he2] at h
    cases hr3 : r2.dropWhile Char.isDigit with
    | nil => rw [hr3, parseDot2_nil] at h; cases h
    | cons c2 r4 =>
      rw [hr3, parseDot2_cons] at h
      by_cases hc2 : c2 = '.'
      swap
      · rw [if_neg hc2] at h; cases h
      rw [if_pos hc2] at h
      unfold parsePatchPart at h
      by_cases he3 : (r4.takeWhile Char.isDigit).isEmpty
      · rw [if_pos he3] at h; cases h
      rw [if_neg he3] at h
      unfold afterPatch at h
      cases hog1 : optGroup '-' (r4.dropWhile Char.isDigit) with
      | none => rw [hog1, Option.none_bind'] at h; cases h
      | some pr =>
        rw [hog1, Option.some_bind'] at h
        cases hog2 : optGroup '+' pr.2 with
        | none => rw [hog2, Option.none_bind'] at h; cases h
        | some br =>
          rw [hog2, Option.some_bind'] at h
          by_cases hend : br.2.isEmpty
          swap
          · rw [if_neg hend] at h; cases h
          rw [if_pos hend] at h
          rw [Option.some.injEq] at h
          rw [← h]
          cases pr.1 <;> simp

/-- Claim C6: `parseVersion` accepts exactly the strings of the
grammar `MAJOR.MINOR.PATCH[-PRERELEASE][+BUILD]` (non-negative integer
MAJOR/MINOR/PATCH, dot-separated alphanumeric-or-hyphen PRERELEASE and
BUILD identifiers); any non-matching string yields absence, never an
exception (the model is a total function into `Option`);
`parseVersion "1.2.3"` is the stable 1.2.3 with no prerelease and no
build, `parseVersion "1.2.3-beta.1"` has `isStable = false`,
`parseVersion "not-a-version"` is absent; and every parse result has
`isStable` true exactly when no prerelease tag is present. -/
theorem claim_C6_parseVersion :
    (∀ s : String, (parseVersion s).isSome = true ↔ SemverGrammar s) ∧
    parseVersion "1.2.3" =
      some { major := 1, minor := 2, patch := 3, prerelease := none,
             build := none, isStable := true } ∧
    parseVersion "1.2.3-beta.1" =
      some { major := 1, minor := 2, patch := 3, prerelease := some "beta.1",
             build := none, isStable := false } ∧
    parseVersion "not-a-version" = none ∧
    (∀ s vi, parseVersion s = some vi → (vi.isStable = true ↔ vi.prerelease = none)) :=
  ⟨fun s => ⟨parseVersion_sound s, parseVersion_complete s⟩,
   by decide, by decide, by decide, parseVersion_stable_iff⟩

/-- Claim C6, witness: the acceptance equivalence applied forward at
the concrete accepted string `1.2.3-beta.1+build.42` produces its
grammar decomposition, and the stability equivalence applied at
`1.2.3` gives `isStable = true` from the absent prerelease. -/
theorem claim_C6_parseVersion_witness :
    SemverGrammar "1.2.3-beta.1+build.42" ∧
    ({ major := 1, minor := 2, patch := 3, prerelease := none,
       build := none, isStable := true } : VersionInfo).isStable = true :=
  ⟨(claim_C6_parseVersion.1 "1.2.3-beta.1+build.42").mp (by decide),
   (claim_C6_parseVersion.2.2.2.2 "1.2.3"
      { major := 1, minor := 2, patch := 3, prerelease := none,
        build := none, isStable := true } (by decide)).mpr rfl⟩

end Pckgi
